import Mathlib

/-!
Verification development for the unifi controller client library.

The Go code under inspection decodes controller JSON bodies through four
flexible scalar codecs (FlexInt, FlexBool, FlexString, FlexTemp), a
dual-shape record decoder (UAPStat.UnmarshalJSON), a generation-aware path
resolver (Unifi.path), a certificate pinning verifier
(Unifi.verifyPeerCertificate) and a request wrapper (Unifi.do).

Embedding conventions:
* Go float64 values are modelled as exact rationals.  The library never
  relies on rounding behaviour in the claims under study.
* Go byte strings are modelled as Lean `String` (a wrapper around
  `List Char`); wire bodies in the claims are ASCII.
* `json.Unmarshal(b, &interface{})` is modelled by the generic JSON value
  type `JsonVal` below; decoders that inspect the raw byte slice `b`
  (FlexBool, FlexTemp) additionally receive the raw text.
* Functions from the Go standard library (strconv.ParseFloat,
  strconv.FormatFloat, strings.Trim, strings.EqualFold, strings.SplitN,
  strings.HasPrefix, strings.Join) are modelled explicitly below; the
  SHA-256 digest of crypto/sha256 is taken as an opaque function argument
  since only membership of its hex encoding is relevant.
-/

/-- A parsed generic JSON value, the result of Go `json.Unmarshal` into an
`interface\x7b\x7d`: number (float64), string, bool, null, array or object. -/
inductive JsonVal where
  | num (q : ℚ)
  | str (s : String)
  | boolean (b : Bool)
  | null
  | arr (items : List JsonVal)
  | obj (fields : List (String × JsonVal))

/-- Decode errors of the package: the sentinel errors declared in types.go
plus the type-mismatch errors produced by encoding/json itself (carrying
the description of the target type). -/
inductive DecErr where
  | typeErr (target : String)
  | cannotUnmarshalFlexInt
  | cannotUnmarshalFlexString
  deriving DecidableEq, Repr

/-- Request-level sentinel errors declared at the top of the client file. -/
inductive ReqErr where
  | authenticationFailed
  | invalidStatusCode
  | noParams
  | invalidSignature
  deriving DecidableEq, Repr

/- ### Models of Go standard-library string helpers -/

/-- Models Go `strings.Join(xs, sep)`. -/
def goJoin (sep : String) : List String → String
  | [] => ""
  | [x] => x
  | x :: y :: rest => x ++ sep ++ goJoin sep (y :: rest)

/-- Models Go `strings.Trim(s, "\"")`: remove every leading and trailing
double-quote character. -/
def goTrimQuotes (s : String) : String :=
  ⟨((s.data.dropWhile (· = '"')).reverse.dropWhile (· = '"')).reverse⟩

/-- Models Go `strings.EqualFold` restricted to ASCII (the only characters
appearing in the truthy vocabulary): case-insensitive equality. -/
def goEqualFold (a b : String) : Bool :=
  a.data.map Char.toLower = b.data.map Char.toLower

/-- Models Go `strings.HasPrefix(s, pre)`. -/
def goHasPre (s pre : String) : Bool :=
  pre.data.isPrefixOf s.data

/-- Models Go `strings.SplitN(s, " ", 2)`: at most two pieces, split at the
first space. -/
def goSplitSpaceN2 (s : String) : List String :=
  match s.data.dropWhile (· ≠ ' ') with
  | [] => [⟨s.data.takeWhile (· ≠ ' ')⟩]
  | _ :: rest => [⟨s.data.takeWhile (· ≠ ' ')⟩, ⟨rest⟩]

/-- Numeric value of a list of decimal digit characters. -/
def digitsToNat (l : List Char) : ℕ :=
  l.foldl (fun a c => 10 * a + (c.toNat - 48)) 0

/-- Split a float literal into mantissa and optional exponent part at the
first `e` or `E`. -/
def splitExp (l : List Char) : List Char × Option (List Char) :=
  match l.dropWhile (fun c => ¬(c = 'e' ∨ c = 'E')) with
  | [] => (l.takeWhile (fun c => ¬(c = 'e' ∨ c = 'E')), none)
  | _ :: rest => (l.takeWhile (fun c => ¬(c = 'e' ∨ c = 'E')), some rest)

/-- Parse an unsigned decimal mantissa `digits[.digits]`; at least one digit
must be present. -/
def parseMant (l : List Char) : Option ℚ :=
  let ip := l.takeWhile (· ≠ '.')
  match l.dropWhile (· ≠ '.') with
  | [] =>
    if ip ≠ [] ∧ ip.all Char.isDigit then some (digitsToNat ip) else none
  | _ :: fp =>
    if (ip ≠ [] ∨ fp ≠ []) ∧ ip.all Char.isDigit ∧ fp.all Char.isDigit then
      some ((digitsToNat ip : ℚ) + (digitsToNat fp : ℚ) / 10 ^ fp.length)
    else none

/-- Parse an optionally signed decimal exponent. -/
def parseExpPart (l : List Char) : Option ℤ :=
  match l with
  | '+' :: t => if t ≠ [] ∧ t.all Char.isDigit then some (digitsToNat t) else none
  | '-' :: t => if t ≠ [] ∧ t.all Char.isDigit then some (-(digitsToNat t : ℤ)) else none
  | t => if t ≠ [] ∧ t.all Char.isDigit then some (digitsToNat t) else none

/-- Models Go `strconv.ParseFloat(s, 64)` on decimal literals, with exact
rational arithmetic in place of binary rounding: `none` models a returned
syntax error (in which case the Go call yields the value 0). -/
def goParseFloat (s : String) : Option ℚ :=
  let signArm : ℚ × List Char :=
    match s.data with
    | '+' :: t => (1, t)
    | '-' :: t => (-1, t)
    | t => (1, t)
  match splitExp signArm.2 with
  | (m, none) => (parseMant m).map (fun q => signArm.1 * q)
  | (m, some e) =>
    match parseMant m, parseExpPart e with
    | some q, some z => some (signArm.1 * q * (10 : ℚ) ^ z)
    | _, _ => none

/-- Decimal digit characters of the fractional part of a rational, with
fuel bounding the number of emitted digits. -/
def fracDigits : ℕ → ℚ → List Char
  | 0, _ => []
  | fuel + 1, q =>
    if q = 0 then []
    else
      let q10 := q * 10
      Char.ofNat (48 + (⌊q10⌋).toNat % 10) :: fracDigits fuel (q10 - ⌊q10⌋)

/-- Models Go `strconv.FormatFloat(v, 'f', -1, 64)`: shortest plain decimal
rendering, here computed exactly on the rational model. -/
def formatRat (q : ℚ) : String :=
  let sgn : String := if q < 0 then "-" else ""
  let aq : ℚ := |q|
  let frac := fracDigits 64 (aq - ⌊aq⌋)
  sgn ++ (⌊aq⌋).toNat.repr ++ (if frac = [] then "" else "." ++ ⟨frac⟩)

/- ### The flexible scalar codecs (src/types.go) -/

/-- FlexInt from types.go: canonical numeric value plus original text. -/
structure FlexInt where
  Val : ℚ
  Txt : String
  deriving DecidableEq, Repr

/-- FlexBool from types.go. -/
structure FlexBool where
  Val : Bool
  Txt : String
  deriving DecidableEq, Repr

/-- FlexString from types.go. -/
structure FlexString where
  Val : String
  Arr : List String
  hintIsArray : Bool
  deriving DecidableEq, Repr

/-- FlexTemp from types.go: Celsius value plus original text. -/
structure FlexTemp where
  Val : ℚ
  Txt : String
  deriving DecidableEq, Repr

/-- FlexInt.UnmarshalJSON (types.go): switch on the generic unmarshalled
value.  Number: value and its decimal rendering.  String: keep the text,
best-effort float parse (0 on parse failure, error ignored).  Null: zero.
Anything else: ErrCannotUnmarshalFlexInt. -/
def FlexInt.unmarshalJSON (v : JsonVal) : Except DecErr FlexInt :=
  match v with
  | .num q => .ok { Val := q, Txt := formatRat q }
  | .str s => .ok { Val := (goParseFloat s).getD 0, Txt := s }
  | .null => .ok { Val := 0, Txt := "0" }
  | _ => .error .cannotUnmarshalFlexInt

/-- The fixed truthy vocabulary of FlexBool.UnmarshalJSON. -/
def truthyTokens : List String :=
  ["1", "true", "yes", "t", "armed", "active", "enabled", "ready", "up", "ok"]

/-- FlexBool.UnmarshalJSON (types.go): operates on the raw bytes `b` only.
Txt is the input with surrounding quotes trimmed; Val is true exactly when
Txt is "1" or case-insensitively equal to one of the other truthy tokens.
It never returns an error. -/
def FlexBool.unmarshalJSON (b : String) : Except DecErr FlexBool :=
  let t := goTrimQuotes b
  .ok { Val := (t = "1" : Bool) || goEqualFold t "true" || goEqualFold t "yes" ||
          goEqualFold t "t" || goEqualFold t "armed" || goEqualFold t "active" ||
          goEqualFold t "enabled" || goEqualFold t "ready" || goEqualFold t "up" ||
          goEqualFold t "ok",
        Txt := t }

/-- FlexString.UnmarshalJSON (types.go): arrays keep their string elements
(other elements are dropped) joined by ", "; plain strings are wrapped;
null is a no-op on the zero value; other shapes give
ErrCannotUnmarshalFlexString.  The Go `case []string` arm is unreachable
after unmarshalling into `interface\x7b\x7d` and is not modelled. -/
def FlexString.unmarshalJSON (v : JsonVal) : Except DecErr FlexString :=
  match v with
  | .arr items =>
    let arr := items.filterMap (fun x => match x with | .str s => some s | _ => none)
    .ok { Val := goJoin ", " arr, Arr := arr, hintIsArray := true }
  | .str s => .ok { Val := s, Arr := [s], hintIsArray := false }
  | .null => .ok { Val := "", Arr := [], hintIsArray := false }
  | _ => .error .cannotUnmarshalFlexString

/-- FlexTemp.UnmarshalJSON (types.go): like FlexInt, except that in the
string case the RAW json bytes `b` (still carrying the surrounding
quotes) are split at the first space; with two pieces present the first
piece is float-parsed, otherwise the unquoted string is float-parsed.
The default arm reuses ErrCannotUnmarshalFlexInt, as the source does. -/
def FlexTemp.unmarshalJSON (v : JsonVal) (b : String) : Except DecErr FlexTemp :=
  match v with
  | .num q => .ok { Val := q, Txt := formatRat q }
  | .str i =>
    let parts := goSplitSpaceN2 b
    if parts.length = 2 then
      .ok { Val := (goParseFloat (parts.getD 0 "")).getD 0, Txt := i }
    else
      .ok { Val := (goParseFloat i).getD 0, Txt := i }
  | .null => .ok { Val := 0, Txt := "0" }
  | _ => .error .cannotUnmarshalFlexInt

/-- FlexTemp.Fahrenheit (types.go line 618): the Go source computes
`(f.Val * (9 / 5)) + 32` where `9 / 5` is a quotient of untyped integer
constants, hence integer division. -/
def FlexTemp.Fahrenheit (f : FlexTemp) : ℚ :=
  f.Val * (((9 : ℤ) / (5 : ℤ) : ℤ) : ℚ) + 32

/-- FlexTemp.Celsius (types.go): the stored value. -/
def FlexTemp.Celsius (f : FlexTemp) : ℚ :=
  f.Val

/- ### The dual-shape record decoder (src/uap.go, UAPStat.UnmarshalJSON) -/

/-- The Ap record of uap.go, restricted to the fields that govern the
dual-shape decode: the plain string field tagged "ap" (which makes the
flat decode of an envelope body fail) and the FlexInt field tagged
"bytes" (the field used by the spec's own dual-shape example).  The
remaining fields are further independent scalar fields of the same
kinds and do not affect the decoder's shape selection. -/
structure ApRec where
  Ap : String
  Bytes : FlexInt
  deriving DecidableEq, Repr

/-- The zero value of Ap: Go's fresh struct before decoding. -/
def ApRec.zero : ApRec :=
  { Ap := "", Bytes := { Val := 0, Txt := "" } }

/-- The outcome of one json.Unmarshal-style decode: the (possibly
partially) populated record, the error json.Unmarshal would report
(`none` on success), and whether the decode was aborted by a custom
unmarshaler error.  encoding/json saves built-in type errors (keeping
the first) and completes the unmarshaling as best it can, while the
first error returned by a field's own UnmarshalJSON aborts immediately
and is reported even over an earlier saved error; in both cases every
field written before (and, for saved errors, after) the error keeps its
value. -/
structure DecOut where
  record : ApRec
  err : Option DecErr
  aborted : Bool
  deriving DecidableEq, Repr

/-- First-error-wins accumulation of encoding/json's saveError. -/
def keepFirst (a b : Option DecErr) : Option DecErr :=
  match a with
  | some e => some e
  | none => b

/-- encoding/json object decoding into Ap: walk the input keys in order,
mutating the given record.  The plain string field accepts strings, is
left untouched by null, and on any other shape saves a type error and
continues with the remaining keys; the FlexInt field defers to
FlexInt.UnmarshalJSON, whose error aborts the whole decode at once;
unknown keys are ignored. -/
def decodeApFields (cur : ApRec) (saved : Option DecErr) :
    List (String × JsonVal) → DecOut
  | [] => ⟨cur, saved, false⟩
  | (k, v) :: rest =>
    if k = "ap" then
      match v with
      | .str s => decodeApFields { cur with Ap := s } saved rest
      | .null => decodeApFields cur saved rest
      | _ => decodeApFields cur
          (keepFirst saved (some (.typeErr "Ap.ap of type string"))) rest
    else if k = "bytes" then
      match FlexInt.unmarshalJSON v with
      | .ok f => decodeApFields { cur with Bytes := f } saved rest
      | .error e => ⟨cur, some e, true⟩
    else
      decodeApFields cur saved rest

/-- encoding/json decoding of a generic value into an existing Ap value:
null is a no-op, an object decodes field-wise into the given record, and
any other shape saves a type error naming Ap, leaving the record
untouched. -/
def decodeApInto (cur : ApRec) (v : JsonVal) : DecOut :=
  match v with
  | .null => ⟨cur, none, false⟩
  | .obj kvs => decodeApFields cur none kvs
  | _ => ⟨cur, some (.typeErr "Ap"), false⟩

/-- encoding/json decoding into the anonymous wrapper struct with the
single embedded field tagged "ap": only the key "ap" is significant and
decodes into the inner Ap record (its saved errors accumulate
first-wins, its aborts propagate unchanged); all other keys are
ignored. -/
def decodeEnvFields (cur : ApRec) (saved : Option DecErr) :
    List (String × JsonVal) → DecOut
  | [] => ⟨cur, saved, false⟩
  | (k, v) :: rest =>
    if k = "ap" then
      match decodeApInto cur v with
      | ⟨cur₂, e, true⟩ => ⟨cur₂, e, true⟩
      | ⟨cur₂, e, false⟩ => decodeEnvFields cur₂ (keepFirst saved e) rest
    else
      decodeEnvFields cur saved rest

/-- json.Unmarshal(data, &n): the nested envelope decode of the body as
the wrapper object holding the Ap record under the key "ap", decoding
into the given (possibly already populated) record. -/
def decodeApEnvelope (cur : ApRec) (v : JsonVal) : DecOut :=
  match v with
  | .null => ⟨cur, none, false⟩
  | .obj kvs => decodeEnvFields cur none kvs
  | _ => ⟨cur, some (.typeErr "UAPStat envelope"), false⟩

/-- UAPStat.UnmarshalJSON (uap.go lines 681-694): allocate the zero
wrapper n and point v.Ap at n.Ap; first unmarshal the body directly into
that record (controller version 5.10); only if that reports an error,
unmarshal the body as the envelope object into the same n — reusing
whatever the failed flat attempt already wrote into n.Ap — and surface
the envelope attempt's outcome (controller version 5.11). -/
def UAPStat.unmarshalJSON (data : JsonVal) : Except DecErr ApRec :=
  let flat := decodeApInto ApRec.zero data
  match flat.err with
  | none => .ok flat.record
  | some _ =>
    let env := decodeApEnvelope flat.record data
    match env.err with
    | none => .ok env.record
    | some e => .error e

/-- Modelled from the spec section 4.2: the decoder the claim describes —
attempt the nested envelope shape first and only on failure decode the
body directly as the flat record, surfacing the flat attempt's outcome.
The spec words the contract as two attempts on the body, so each starts
from a fresh zero record. -/
def claimedUAPStatDecoder (v : JsonVal) : Except DecErr ApRec :=
  let env := decodeApEnvelope ApRec.zero v
  match env.err with
  | none => .ok env.record
  | some _ =>
    let flat := decodeApInto ApRec.zero v
    match flat.err with
    | none => .ok flat.record
    | some e => .error e

/- ### Session state, path resolver, pinning verifier, request wrapper -/

/-- API path constants from types.go / protect/types.go. -/
def APILoginPath : String := "/api/login"

/-- The modern login path constant APILoginPathNew. -/
def APILoginPathNew : String := "/api/auth/login"

/-- The modern path APIPrefixNew prepended to non-login paths. -/
def APIPrefixNew : String := "/proxy/protect"

/-- The mutable session state of the Unifi record relevant to the claims:
the cached API-generation flag `new`, the last-seen CSRF token and the
pinned certificate fingerprints. -/
structure UnifiSession where
  new : Bool
  csrf : String
  fingerprints : List String
  deriving DecidableEq, Repr

/-- Unifi.path (types.go lines 168-180 and the identical copy in
protect/types.go): in legacy state every path is returned unchanged; in
modern state the legacy login path becomes the modern login path, and a
path that neither starts with the modern path piece nor is the modern
login path gets the modern piece prepended. -/
def UnifiSession.path (u : UnifiSession) (p : String) : String :=
  if u.new then
    if p = APILoginPath then APILoginPathNew
    else if goHasPre p APIPrefixNew = false ∧ p ≠ APILoginPathNew then APIPrefixNew ++ p
    else p
  else p

/-- fingerprints.Contains (types.go lines 295-303): linear scan for an
exact string match. -/
def fingerprintsContains : List String → String → Bool
  | [], _ => false
  | x :: rest, s => if s = x then true else fingerprintsContains rest s

/-- The certificate loop of verifyPeerCertificate: return success at the
first offered certificate whose digest is pinned, otherwise
ErrInvalidSignature once the list is exhausted. -/
def verifyCertLoop (fps : List String) (digest : List ℕ → String) :
    List (List ℕ) → Option ReqErr
  | [] => some .invalidSignature
  | c :: rest =>
    if fingerprintsContains fps (digest c) then none else verifyCertLoop fps digest rest

/-- Unifi.verifyPeerCertificate (client file lines 101-113): with no
pinned fingerprints the verification succeeds immediately; otherwise each
raw offered certificate is digested (hex-encoded SHA-256, supplied here
as the function `digest`) and checked against the pinned set.  `none`
models the nil error, `some e` models a returned error. -/
def UnifiSession.verifyPeerCertificate (u : UnifiSession)
    (digest : List ℕ → String) (certs : List (List ℕ)) : Option ReqErr :=
  if u.fingerprints.length = 0 then none
  else verifyCertLoop u.fingerprints digest certs

/-- An HTTP response as seen by Unifi.do after the transport round trip:
status code, status text, fully read body bytes and the value of the
x-csrf-token header ("" when absent, as Go's Header.Get reports). -/
structure HTTPResponse where
  statusCode : ℕ
  status : String
  body : List ℕ
  csrfHeader : String
  deriving DecidableEq, Repr

/-- A request error wrapped with the context the source attaches
(request URL and status text) around a sentinel error. -/
structure WrappedErr where
  context : String
  base : ReqErr
  deriving DecidableEq, Repr

/-- Unifi.do (client file lines 337-370), after a successful round trip
and body read: save a non-empty x-csrf-token header into the session,
and if the status code is not 200 produce ErrInvalidStatusCode wrapped
with the request URL and status text; the read body is returned in
either case. -/
def UnifiSession.doResponse (u : UnifiSession) (reqURL : String)
    (resp : HTTPResponse) : UnifiSession × List ℕ × Option WrappedErr :=
  let u₂ := if resp.csrfHeader ≠ "" then { u with csrf := resp.csrfHeader } else u
  let err := if resp.statusCode ≠ 200 then
      some { context := reqURL ++ ": " ++ resp.status, base := .invalidStatusCode }
    else none
  (u₂, resp.body, err)

/- ### Helper lemmas -/

/-- Only the digit 1 lower-cases to the digit 1. -/
theorem toLower_eq_one_iff (c : Char) : c.toLower = '1' ↔ c = '1' := by
  constructor
  · intro h
    rw [show Char.toLower c =
        if c.toNat ≥ 65 ∧ c.toNat ≤ 90 then Char.ofNat (c.toNat + 32) else c from rfl] at h
    split at h
    · exfalso
      rename_i hc
      have hv : (c.toNat + 32).isValidChar := Or.inl (by omega)
      have h2 : (Char.ofNat (c.toNat + 32)).toNat = c.toNat + 32 := by
        rw [Char.ofNat, dif_pos hv]
        rfl
      rw [h] at h2
      have h3 : ('1' : Char).toNat = 49 := rfl
      omega
    · exact h
  · intro h
    subst h
    rfl

/-- Case-insensitive comparison with "1" is exact comparison with "1". -/
theorem goEqualFold_one (t : String) : goEqualFold t "1" = decide (t = "1") := by
  unfold goEqualFold
  simp only [decide_eq_decide]
  constructor
  · intro h
    cases t with
    | mk l =>
      cases l with
      | nil => exact absurd h (by decide)
      | cons c rest =>
        have h2 : Char.toLower c :: rest.map Char.toLower = ['1'] := h
        have h3 : Char.toLower c = '1' := (List.cons.injEq _ _ _ _ ▸ h2).1
        have h4 : rest.map Char.toLower = [] := (List.cons.injEq _ _ _ _ ▸ h2).2
        have h5 : rest = [] := List.map_eq_nil_iff.mp h4
        have h6 : c = '1' := (toLower_eq_one_iff c).mp h3
        rw [h5, h6]
  · intro h
    subst h
    rfl

/-- FlexBool.UnmarshalJSON in closed form: the result always succeeds,
keeps the quote-trimmed text, and its value is the case-insensitive
membership of that text in the truthy vocabulary. -/
theorem flexBool_unmarshal_eq (b : String) :
    FlexBool.unmarshalJSON b =
      .ok { Val := truthyTokens.any (fun w => goEqualFold (goTrimQuotes b) w),
            Txt := goTrimQuotes b } := by
  unfold FlexBool.unmarshalJSON truthyTokens
  simp only [List.any_cons, List.any_nil, goEqualFold_one, Bool.or_false, Bool.or_assoc]

/-- A list is a Boolean prefix of itself extended by anything. -/
theorem isPrefixOf_append_self (l m : List Char) : l.isPrefixOf (l ++ m) = true := by
  simp

/-- String append acts as list append on the character data. -/
theorem data_append (a b : String) : (a ++ b).data = a.data ++ b.data := by
  cases a
  cases b
  rfl

/-- A string has itself-plus-anything as prefix. -/
theorem goHasPre_append (a p : String) : goHasPre (a ++ p) a = true := by
  unfold goHasPre
  rw [data_append]
  exact isPrefixOf_append_self _ _

/-- A path with the modern piece prepended is never the legacy login path
(the lengths differ). -/
theorem append_ne_login (p : String) : APIPrefixNew ++ p ≠ APILoginPath := by
  intro h
  have h2 := congrArg String.data h
  rw [data_append] at h2
  have h3 := congrArg List.length h2
  simp [APIPrefixNew, APILoginPath] at h3

/-- fingerprints.Contains decides list membership. -/
theorem fingerprintsContains_iff (fps : List String) (s : String) :
    fingerprintsContains fps s = true ↔ s ∈ fps := by
  induction fps with
  | nil => simp [fingerprintsContains]
  | cons x rest ih =>
    by_cases h : s = x
    · simp [fingerprintsContains, h]
    · simp [fingerprintsContains, h, ih]

/-- The certificate loop succeeds when some offered certificate's digest
is pinned. -/
theorem verifyCertLoop_of_mem (fps : List String) (digest : List ℕ → String)
    (certs : List (List ℕ)) (h : ∃ c ∈ certs, digest c ∈ fps) :
    verifyCertLoop fps digest certs = none := by
  induction certs with
  | nil => simp at h
  | cons c rest ih =>
    unfold verifyCertLoop
    obtain ⟨d, hd, hm⟩ := h
    by_cases hc : fingerprintsContains fps (digest c) = true
    · simp [hc]
    · simp [hc]
      rcases List.mem_cons.mp hd with h1 | h1
      · exact absurd ((fingerprintsContains_iff fps (digest d)).mpr (h1 ▸ hm))
          (h1 ▸ hc)
      · exact ih ⟨d, h1, hm⟩

/-- The certificate loop fails with the signature error when no offered
certificate's digest is pinned. -/
theorem verifyCertLoop_of_forall (fps : List String) (digest : List ℕ → String)
    (certs : List (List ℕ)) (h : ∀ c ∈ certs, digest c ∉ fps) :
    verifyCertLoop fps digest certs = some .invalidSignature := by
  induction certs with
  | nil => rfl
  | cons c rest ih =>
    unfold verifyCertLoop
    have hc : ¬ fingerprintsContains fps (digest c) = true := by
      intro hcon
      exact h c (List.mem_cons_self c rest) ((fingerprintsContains_iff _ _).mp hcon)
    simp [hc]
    exact ih (fun d hd => h d (List.mem_cons_of_mem c hd))

/- ### Claim theorems -/

/-- C1: the non-mutating Fahrenheit accessor.  The Go source multiplies by
the untyped constant quotient 9 / 5, which is integer division with value
1, so the accessor actually returns Val + 32: at 36.5 Celsius it yields
68.5, not the 97.7 the claim states. -/
theorem c1_fahrenheit_integer_div :
    (∀ f : FlexTemp, f.Fahrenheit = f.Val + 32) ∧
    FlexTemp.Fahrenheit { Val := 73 / 2, Txt := "36.5 C" } = 137 / 2 ∧
    (137 / 2 : ℚ) ≠ 977 / 10 := by
  refine ⟨fun f => ?_, by norm_num [FlexTemp.Fahrenheit], by norm_num⟩
  unfold FlexTemp.Fahrenheit
  norm_num

unseal Rat.mul Rat.add Rat.inv in
/-- C2: decoding the JSON string "36.5 C" (raw bytes still carrying the
quotes) yields Val = 0, not 36.5: the source splits the raw bytes, so the
first piece is quote-36.5, whose float parse fails, even though the
unquoted first token "36.5" itself parses fine. -/
theorem c2_flextemp_split_bug :
    FlexTemp.unmarshalJSON (.str "36.5 C") "\"36.5 C\"" =
      .ok { Val := 0, Txt := "36.5 C" } ∧
    goParseFloat "\"36.5" = none ∧
    goParseFloat "36.5" = some (73 / 2 : ℚ) ∧
    (0 : ℚ) ≠ 73 / 2 := by
  refine ⟨rfl, rfl, rfl, by norm_num⟩

unseal Rat.mul Rat.add Rat.inv in
/-- C3 counterexample: on the flat body with key "bytes" mapped to "3" the
decoder in the source returns the flat decode (bytes = 3), while the
claimed envelope-first decoder returns the zero record, because the
envelope decode of that body also succeeds (ignoring the unknown key). -/
theorem c3_counterexample :
    UAPStat.unmarshalJSON (.obj [("bytes", .str "3")]) ≠
      claimedUAPStatDecoder (.obj [("bytes", .str "3")]) := by
  intro h
  have h1 : UAPStat.unmarshalJSON (.obj [("bytes", .str "3")]) =
      .ok { Ap := "", Bytes := { Val := 3, Txt := "3" } } := rfl
  have h2 : claimedUAPStatDecoder (.obj [("bytes", .str "3")]) =
      .ok { Ap := "", Bytes := { Val := 0, Txt := "" } } := rfl
  rw [h1, h2] at h
  injection h with h3
  have h4 : ("3" : String) = "" := congrArg (fun r => r.Bytes.Txt) h3
  exact absurd h4 (by decide)

/-- C3 amended: UAPStat.UnmarshalJSON first attempts the direct flat
decode of the body into the fresh zero record; only if that reports an
error does it decode the nested envelope shape — into the same record
the failed flat attempt already partially populated — and when both
attempts report errors it surfaces the error of the second (envelope)
attempt. -/
theorem c3_flat_first_fallback :
    (∀ v : JsonVal, (decodeApInto ApRec.zero v).err = none →
      UAPStat.unmarshalJSON v = .ok (decodeApInto ApRec.zero v).record) ∧
    (∀ (v : JsonVal) (e : DecErr), (decodeApInto ApRec.zero v).err = some e →
      (decodeApEnvelope (decodeApInto ApRec.zero v).record v).err = none →
      UAPStat.unmarshalJSON v =
        .ok (decodeApEnvelope (decodeApInto ApRec.zero v).record v).record) ∧
    (∀ (v : JsonVal) (e e₂ : DecErr), (decodeApInto ApRec.zero v).err = some e →
      (decodeApEnvelope (decodeApInto ApRec.zero v).record v).err = some e₂ →
      UAPStat.unmarshalJSON v = .error e₂) := by
  refine ⟨?_, ?_, ?_⟩
  · intro v h
    simp only [UAPStat.unmarshalJSON]
    rw [h]
  · intro v e h h₂
    simp only [UAPStat.unmarshalJSON]
    rw [h, h₂]
  · intro v e e₂ h h₂
    simp only [UAPStat.unmarshalJSON]
    rw [h, h₂]

unseal Rat.mul Rat.add Rat.inv in
/-- Witness for C3: a number body fails both decode attempts and surfaces
the envelope attempt's type error; an envelope body fails the flat
attempt (object into the string field "ap") and succeeds via fallback;
and on a body carrying both keys the envelope retry keeps the bytes
field the failed flat attempt had already populated, as the source
does. -/
theorem c3_flat_first_fallback_witness :
    UAPStat.unmarshalJSON (.num 1) = .error (.typeErr "UAPStat envelope") ∧
    UAPStat.unmarshalJSON (.obj [("ap", .obj [("bytes", .str "10")])]) =
      .ok { Ap := "", Bytes := { Val := 10, Txt := "10" } } ∧
    UAPStat.unmarshalJSON (.obj [("bytes", .str "3"), ("ap", .obj [])]) =
      .ok { Ap := "", Bytes := { Val := 3, Txt := "3" } } := by
  refine ⟨c3_flat_first_fallback.2.2 (.num 1) (.typeErr "Ap")
    (.typeErr "UAPStat envelope") rfl rfl, ?_, ?_⟩
  · have h := c3_flat_first_fallback.2.1 (.obj [("ap", .obj [("bytes", .str "10")])])
      (.typeErr "Ap.ap of type string") rfl rfl
    rw [h]
    rfl
  · have h := c3_flat_first_fallback.2.1 (.obj [("bytes", .str "3"), ("ap", .obj [])])
      (.typeErr "Ap.ap of type string") rfl rfl
    rw [h]
    rfl

/-- C4: path resolution.  Legacy state returns every path unchanged.
Modern state maps the legacy login path to the modern login path;
otherwise (in the order the source checks) a path that does not start
with the modern piece and is not the modern login path gets the piece
prepended, and every other path is returned unchanged. -/
theorem c4_path_resolution :
    (∀ (u : UnifiSession) (p : String), u.new = false → u.path p = p) ∧
    (∀ u : UnifiSession, u.new = true → u.path APILoginPath = APILoginPathNew) ∧
    (∀ (u : UnifiSession) (p : String), u.new = true → p ≠ APILoginPath →
      goHasPre p APIPrefixNew = false → p ≠ APILoginPathNew →
      u.path p = APIPrefixNew ++ p) ∧
    (∀ (u : UnifiSession) (p : String), u.new = true → p ≠ APILoginPath →
      (goHasPre p APIPrefixNew = true ∨ p = APILoginPathNew) → u.path p = p) := by
  refine ⟨?_, ?_, ?_, ?_⟩
  · intro u p h
    unfold UnifiSession.path
    rw [if_neg]
    simp [h]
  · intro u h
    unfold UnifiSession.path
    rw [if_pos h, if_pos rfl]
  · intro u p h hl hpre hnew
    unfold UnifiSession.path
    rw [if_pos h, if_neg hl, if_pos ⟨hpre, hnew⟩]
  · intro u p h hl hor
    unfold UnifiSession.path
    rw [if_pos h, if_neg hl, if_neg]
    rintro ⟨h1, h2⟩
    rcases hor with h3 | h3
    · rw [h3] at h1
      cases h1
    · exact h2 h3

/-- Witness for C4 at concrete paths in both generation states. -/
theorem c4_path_resolution_witness :
    UnifiSession.path ⟨false, "", []⟩ "/api/s/default/stat/device" =
      "/api/s/default/stat/device" ∧
    UnifiSession.path ⟨true, "", []⟩ APILoginPath = APILoginPathNew ∧
    UnifiSession.path ⟨true, "", []⟩ "/api/s/default/stat/device" =
      "/proxy/protect/api/s/default/stat/device" ∧
    UnifiSession.path ⟨true, "", []⟩ APILoginPathNew = APILoginPathNew := by
  refine ⟨c4_path_resolution.1 _ _ rfl, c4_path_resolution.2.1 _ rfl, ?_, ?_⟩
  · have h := c4_path_resolution.2.2.1 ⟨true, "", []⟩ "/api/s/default/stat/device"
      rfl (by decide) (by decide) (by decide)
    rw [h]
    rfl
  · exact c4_path_resolution.2.2.2 ⟨true, "", []⟩ APILoginPathNew rfl (by decide)
      (Or.inr rfl)

/-- C5: the path resolver is idempotent in both generation states, and in
particular leaves an already-prefixed path and the modern login path
untouched. -/
theorem c5_path_idempotent :
    (∀ (u : UnifiSession) (p : String), u.path (u.path p) = u.path p) ∧
    UnifiSession.path ⟨true, "", []⟩ "/proxy/protect/api/s/default/stat/device" =
      "/proxy/protect/api/s/default/stat/device" ∧
    UnifiSession.path ⟨true, "", []⟩ APILoginPathNew = APILoginPathNew := by
  refine ⟨?_, rfl, rfl⟩
  intro u p
  obtain ⟨n, c, f⟩ := u
  cases n with
  | false => rfl
  | true =>
    by_cases h1 : p = APILoginPath
    · subst h1
      rfl
    · by_cases h2 : goHasPre p APIPrefixNew = false ∧ p ≠ APILoginPathNew
      · have e1 : UnifiSession.path ⟨true, c, f⟩ p = APIPrefixNew ++ p := by
          unfold UnifiSession.path
          rw [if_pos rfl, if_neg h1, if_pos h2]
        have e2 : UnifiSession.path ⟨true, c, f⟩ (APIPrefixNew ++ p) =
            APIPrefixNew ++ p := by
          unfold UnifiSession.path
          rw [if_pos rfl, if_neg (append_ne_login p), if_neg]
          rintro ⟨hfalse, -⟩
          rw [goHasPre_append] at hfalse
          cases hfalse
        rw [e1, e2]
      · have e1 : UnifiSession.path ⟨true, c, f⟩ p = p := by
          unfold UnifiSession.path
          rw [if_pos rfl, if_neg h1, if_neg h2]
        rw [e1]
        exact e1

/-- C6: certificate pinning.  An empty pinned set verifies any
presentation; a presented certificate whose digest is pinned verifies;
otherwise the verifier fails with the InvalidSignature error. -/
theorem c6_verify_pinning :
    ∀ (u : UnifiSession) (digest : List ℕ → String) (certs : List (List ℕ)),
      (u.fingerprints = [] → u.verifyPeerCertificate digest certs = none) ∧
      ((∃ c ∈ certs, digest c ∈ u.fingerprints) →
        u.verifyPeerCertificate digest certs = none) ∧
      (u.fingerprints ≠ [] → (∀ c ∈ certs, digest c ∉ u.fingerprints) →
        u.verifyPeerCertificate digest certs = some .invalidSignature) := by
  intro u digest certs
  refine ⟨?_, ?_, ?_⟩
  · intro h
    unfold UnifiSession.verifyPeerCertificate
    rw [if_pos (by rw [h]; rfl)]
  · rintro ⟨c, hc, hm⟩
    unfold UnifiSession.verifyPeerCertificate
    by_cases h0 : u.fingerprints.length = 0
    · rw [if_pos h0]
    · rw [if_neg h0]
      exact verifyCertLoop_of_mem _ _ _ ⟨c, hc, hm⟩
  · intro hne hall
    unfold UnifiSession.verifyPeerCertificate
    rw [if_neg (by simpa using hne)]
    exact verifyCertLoop_of_forall _ _ _ hall

/-- Witness for C6: a concrete digest function and certificate list in the
three regimes (no pinning, pinned match, pinned mismatch). -/
theorem c6_verify_pinning_witness :
    UnifiSession.verifyPeerCertificate ⟨true, "", []⟩ (fun _ => "ab") [[0]] = none ∧
    UnifiSession.verifyPeerCertificate ⟨true, "", ["ab"]⟩ (fun _ => "ab") [[0]] = none ∧
    UnifiSession.verifyPeerCertificate ⟨true, "", ["ab"]⟩ (fun _ => "cd") [[0]] =
      some .invalidSignature := by
  refine ⟨(c6_verify_pinning _ _ _).1 rfl,
    (c6_verify_pinning _ _ _).2.1 ⟨[0], by simp, by simp⟩,
    (c6_verify_pinning _ _ _).2.2 (by simp) ?_⟩
  intro c hc
  simp

unseal Rat.mul Rat.add Rat.inv in
/-- C7: for every JSON string input the FlexInt decoder succeeds, keeps the
text verbatim, and stores the float parse of the text, or 0 when the text
does not parse; concretely, a numeric string parses to its value and an
unparseable string yields 0 with the text preserved. -/
theorem c7_flexint_string :
    (∀ s : String, FlexInt.unmarshalJSON (.str s) =
      .ok { Val := (goParseFloat s).getD 0, Txt := s }) ∧
    FlexInt.unmarshalJSON (.str "36.5") = .ok { Val := 73 / 2, Txt := "36.5" } ∧
    FlexInt.unmarshalJSON (.str "garbage") = .ok { Val := 0, Txt := "garbage" } :=
  ⟨fun _ => rfl, rfl, rfl⟩

/-- C8: the FlexBool truth table.  The decoded value is true exactly when
the quote-trimmed token is case-insensitively in the truthy vocabulary;
the concrete conjuncts list the claim's examples, including the
unrecognised tokens that map to false. -/
theorem c8_flexbool_truthy :
    (∀ b : String, FlexBool.unmarshalJSON b =
      .ok { Val := truthyTokens.any (fun w => goEqualFold (goTrimQuotes b) w),
            Txt := goTrimQuotes b }) ∧
    FlexBool.unmarshalJSON "\"yes\"" = .ok { Val := true, Txt := "yes" } ∧
    FlexBool.unmarshalJSON "\"0\"" = .ok { Val := false, Txt := "0" } ∧
    FlexBool.unmarshalJSON "\"enabled\"" = .ok { Val := true, Txt := "enabled" } ∧
    FlexBool.unmarshalJSON "\"TRUE\"" = .ok { Val := true, Txt := "TRUE" } ∧
    FlexBool.unmarshalJSON "1" = .ok { Val := true, Txt := "1" } ∧
    FlexBool.unmarshalJSON "\"false\"" = .ok { Val := false, Txt := "false" } ∧
    FlexBool.unmarshalJSON "\"no\"" = .ok { Val := false, Txt := "no" } ∧
    FlexBool.unmarshalJSON "\"disarmed\"" = .ok { Val := false, Txt := "disarmed" } ∧
    FlexBool.unmarshalJSON "\"inactive\"" = .ok { Val := false, Txt := "inactive" } ∧
    FlexBool.unmarshalJSON "\"maybe\"" = .ok { Val := false, Txt := "maybe" } :=
  ⟨flexBool_unmarshal_eq, rfl, rfl, rfl, rfl, rfl, rfl, rfl, rfl, rfl, rfl⟩

/-- C9: the request wrapper always hands back the body it read; a non-200
status additionally produces an error wrapping InvalidStatusCode, a 200
status produces no error. -/
theorem c9_do_status_body :
    ∀ (u : UnifiSession) (reqURL : String) (resp : HTTPResponse),
      (u.doResponse reqURL resp).2.1 = resp.body ∧
      (resp.statusCode ≠ 200 → ∃ e : WrappedErr,
        (u.doResponse reqURL resp).2.2 = some e ∧ e.base = .invalidStatusCode) ∧
      (resp.statusCode = 200 → (u.doResponse reqURL resp).2.2 = none) := by
  intro u reqURL resp
  refine ⟨rfl, ?_, ?_⟩
  · intro h
    exact ⟨{ context := reqURL ++ ": " ++ resp.status, base := .invalidStatusCode },
      by simp [UnifiSession.doResponse, h], rfl⟩
  · intro h
    simp [UnifiSession.doResponse, h]

/-- Witness for C9 at a concrete 404 response and a concrete 200 one. -/
theorem c9_do_status_body_witness :
    (∃ e : WrappedErr,
      (UnifiSession.doResponse ⟨false, "", []⟩ "https://c"
        ⟨404, "404 Not Found", [1, 2], ""⟩).2.2 = some e ∧
      e.base = .invalidStatusCode) ∧
    (UnifiSession.doResponse ⟨false, "", []⟩ "https://c"
      ⟨200, "200 OK", [1, 2], ""⟩).2.2 = none :=
  ⟨(c9_do_status_body _ _ _).2.1 (by decide), (c9_do_status_body _ _ _).2.2 rfl⟩

/-- C10: FlexBool decoding is total — every raw input (whatever JSON shape
it came from) succeeds — and an input whose quote-trimmed text is not in
the truthy vocabulary yields the false value with that text; by contrast
FlexInt, FlexString and FlexTemp reject objects and booleans with their
unmarshal errors. -/
theorem c10_flexbool_total :
    (∀ b : String, ∃ r : FlexBool, FlexBool.unmarshalJSON b = .ok r) ∧
    (∀ b : String,
      truthyTokens.any (fun w => goEqualFold (goTrimQuotes b) w) = false →
      FlexBool.unmarshalJSON b = .ok { Val := false, Txt := goTrimQuotes b }) ∧
    FlexInt.unmarshalJSON (.obj []) = .error .cannotUnmarshalFlexInt ∧
    FlexInt.unmarshalJSON (.boolean true) = .error .cannotUnmarshalFlexInt ∧
    FlexString.unmarshalJSON (.obj []) = .error .cannotUnmarshalFlexString ∧
    FlexTemp.unmarshalJSON (.obj []) "\x7b\x7d" = .error .cannotUnmarshalFlexInt := by
  refine ⟨fun b => ⟨_, flexBool_unmarshal_eq b⟩, ?_, rfl, rfl, rfl, rfl⟩
  intro b h
  rw [flexBool_unmarshal_eq b, h]

/-- Witness for C10: the raw bytes of a JSON object decode through
FlexBool without error, as false. -/
theorem c10_flexbool_total_witness :
    FlexBool.unmarshalJSON "\x7b\x7d" = .ok { Val := false, Txt := "\x7b\x7d" } := by
  have h := c10_flexbool_total.2.1 "\x7b\x7d" (by decide)
  exact h
